import Mathlib

/-!
Verification of the enibridgehub adapter (src/src/adapters/enibridgehub/index.ts).

The repository has a single source file containing:
  * `getDestinationChainId` — extracting a destination chain id from the
    `extData` bytes of a `BridgeExecuted` event (regex `(^|[&?])c=(\d+)`),
  * `getChunkSize` — a per-chain chunk-size table,
  * `getLogsSafe` — a chunked range scanner with shrink-on-failure retry,
  * `inflowAdapter` / `outflowAdapter` — classifiers turning raw logs into
    transfer records.

External collaborators (the `getLogs` transport, ethers' ABI decoding and
UTF-8 decoding) are modelled as data: the transport is a function parameter
`fetch`, the outcome of `iface.parseLog` is an `Option ParsedEvent` carried on
the raw log, and the outcomes of the two text decoders applied to the
`extData` hex string are carried as `Option String` fields of `ExtData`.
Block numbers are natural numbers (the spec requires them `≥ 0`).
-/

namespace EniBridge

/-- Outcomes of the two text decoders the source applies to the `extData`
hex string: `utf8` is the result of `ethers.utils.toUtf8String` (`none` when
it throws), `fallback` the result of the `Buffer.from(hex).toString()`
fallback (`none` when that throws). -/
structure ExtData where
  utf8 : Option String
  fallback : Option String
deriving Repr, DecidableEq

/-- Result of `iface.parseLog`'s `args`: the fields of a decoded
`BridgeExecuted(sender, recipient, inputToken, outputToken, inputAmount, extData)`
event. Addresses are opaque strings; `inputAmount` a natural number. -/
structure ParsedEvent where
  sender : String
  recipient : String
  inputToken : String
  outputToken : String
  inputAmount : Nat
  extData : ExtData
deriving Repr, DecidableEq

/-- A raw log entry as returned by the external log source.  The envelope
fields the adapter reads are `transactionHash` and `blockNumber`;
`parsed` is the outcome of `iface.parseLog` on this entry (`none` when
parsing throws, in which case the adapters skip the entry). -/
structure RawLog where
  transactionHash : String
  blockNumber : Nat
  parsed : Option ParsedEvent
deriving Repr, DecidableEq

/-- The output record pushed by the adapters (`events.push({...})`). -/
structure TransferRecord where
  txHash : String
  blockNumber : Nat
  sender : String
  recipient : String
  token : String
  amount : Nat
  isDeposit : Bool
deriving Repr, DecidableEq

/-- `[&?]` of the routing regex. -/
def isDelim (c : Char) : Bool := c == '&' || c == '?'

/-- `Number(match[2])`: numeric value of a digit string. -/
def natOfDigits (ds : List Char) : Nat :=
  ds.foldl (fun acc c => acc * 10 + (c.toNat - 48)) 0

/-- Try to match `c=(\d+)` at the head of `l`, returning the numeric value of
the (maximal) digit run, as the regex's greedy `\d+` captures it. -/
def matchCAt (l : List Char) : Option Nat :=
  match l with
  | c :: e :: rest =>
    if c = 'c' ∧ e = '=' then
      let ds := rest.takeWhile Char.isDigit
      if ds.isEmpty then none else some (natOfDigits ds)
    else none
  | _ => none

/-- Scan for the leftmost `[&?]c=(\d+)` occurrence: at each delimiter
character, try `c=(\d+)` right after it. -/
def scanAux : List Char → Option Nat
  | [] => none
  | c :: rest =>
    if isDelim c then
      match matchCAt rest with
      | some n => some n
      | none => scanAux rest
    else scanAux rest

/-- `decoded.match(/(^|[&?])c=(\d+)/)` followed by `Number(match[2])`:
the leftmost occurrence of `c=<digits>` at the start of the string or right
after a `&` or `?`. -/
def extractC (s : String) : Option Nat :=
  match matchCAt s.data with
  | some n => some n
  | none => scanAux s.data

/-- Specification-side reading of the regex, written from the spec's words
rather than the source: `c=` followed by at least one digit occurs with the
`c` at position `j` of `l`. -/
def cMatchAt (l : List Char) (j : Nat) : Prop :=
  l[j]? = some 'c' ∧ l[j + 1]? = some '=' ∧ (l[j + 2]?.any Char.isDigit) = true

/-- Specification-side reading of `(^|[&?])c=(\d+)` matching with the `c` at
position `j`: a digit-led `c=` occurrence at the start of the string or right
after a `&`/`?` delimiter. -/
def specMatchAt (l : List Char) (j : Nat) : Prop :=
  (j = 0 ∨ (l[j - 1]?.any isDelim) = true) ∧ cMatchAt l j

/-- The integer captured by a match at position `j`: the value of the maximal
digit run starting at `j + 2` (the greedy `(\d+)` group read by `Number`). -/
def specValueAt (l : List Char) (j : Nat) : Nat :=
  natOfDigits ((l.drop (j + 2)).takeWhile Char.isDigit)

/-- `getDestinationChainId(extDataHex)`: decode the bytes as UTF-8 and apply
the regex; if UTF-8 decoding throws, decode with the fallback decoder and
apply the regex; if that throws too, return `null`.  (When the first decode
succeeds but the regex finds nothing, the fallback is NOT tried — the
source's `try` block returns `null` from inside itself.) -/
def getDestinationChainId (e : ExtData) : Option Nat :=
  match e.utf8 with
  | some s => extractC s
  | none =>
    match e.fallback with
    | some s => extractC s
    | none => none

/-- `isDestinationENI`: destination chain id equals 173. -/
def isDestinationENI (e : ExtData) : Bool :=
  getDestinationChainId e == some 173

/-- `getChunkSize(chain)`: the per-chain chunk-size table with default 3000. -/
def getChunkSize (chain : String) : Nat :=
  if chain = "bsc" then 400
  else if chain = "polygon" then 1500
  else if chain = "arbitrum" ∨ chain = "optimism" ∨ chain = "base" then 4000
  else 3000

/-- The new chunk end computed on a fetch failure:
`end = start + Math.floor(range / 2)` where `range = end - start + 1`. -/
def shrinkEnd (start e : Nat) : Nat := start + (e - start + 1) / 2

/-- The inner `while (true)` retry loop of `getLogsSafe` for one chunk
`[start, e]`: attempt the fetch; on success return the logs; on failure
throw if the range is at most 50, otherwise shrink the end and retry.
Also records the trace of attempted fetch calls, in order. -/
def fetchShrink (fetch : Nat → Nat → Except E (List RawLog))
    (start e : Nat) : Except E (List RawLog) × List (Nat × Nat) :=
  match fetch start e with
  | .ok logs => (.ok logs, [(start, e)])
  | .error err =>
    if _h : e - start + 1 ≤ 50 then (.error err, [(start, e)])
    else
      let r := fetchShrink fetch start (shrinkEnd start e)
      (r.1, (start, e) :: r.2)
termination_by e - start
decreasing_by
  simp only [shrinkEnd]
  omega

/-- The start blocks of the chunks the outer `for` loop of `getLogsSafe`
iterates over: `fromBlock, fromBlock + cs, …` while `≤ toBlock`
(for a positive chunk size `cs`, as all of `getChunkSize`'s values are). -/
def chunkStarts (fromBlock toBlock cs : Nat) : List Nat :=
  if fromBlock ≤ toBlock then
    (List.range ((toBlock - fromBlock) / cs + 1)).map (fun i => fromBlock + i * cs)
  else []

/-- The outer chunk loop of `getLogsSafe`: for each chunk start `s`, run the
retry loop on `[s, min (s + cs - 1) toBlock]`; on error abort the whole scan
with that error (no partial result), on success append the chunk's logs and
continue.  The second component is the trace of attempted fetch calls. -/
def runChunks (fetch : Nat → Nat → Except E (List RawLog)) (cs toBlock : Nat) :
    List Nat → Except E (List RawLog) × List (Nat × Nat)
  | [] => (.ok [], [])
  | s :: rest =>
    match fetchShrink fetch s (min (s + cs - 1) toBlock) with
    | (.error err, tr) => (.error err, tr)
    | (.ok logs, tr) =>
      match runChunks fetch cs toBlock rest with
      | (.ok more, tr2) => (.ok (logs ++ more), tr ++ tr2)
      | (.error err, tr2) => (.error err, tr ++ tr2)

/-- `getLogsSafe({chain, fromBlock, toBlock})`, instrumented with the trace of
attempted fetch calls (each a `(fromBlock, toBlock)` pair passed to the
external `getLogs`). -/
def getLogsSafe (fetch : Nat → Nat → Except E (List RawLog))
    (chain : String) (fromBlock toBlock : Nat) :
    Except E (List RawLog) × List (Nat × Nat) :=
  runChunks fetch (getChunkSize chain) toBlock
    (chunkStarts fromBlock toBlock (getChunkSize chain))

/-- The per-log body of `inflowAdapter`'s loop: skip unparsable logs, skip
logs whose destination is not ENI, otherwise push a record with
`isDeposit = true` and the fields copied from the parsed event and the log
envelope. -/
def classifyInflow (log : RawLog) : Option TransferRecord :=
  match log.parsed with
  | none => none
  | some p =>
    if isDestinationENI p.extData then
      some { txHash := log.transactionHash, blockNumber := log.blockNumber,
             sender := p.sender, recipient := p.recipient,
             token := p.inputToken, amount := p.inputAmount, isDeposit := true }
    else none

/-- The per-log body of `outflowAdapter`'s loop: skip unparsable logs, skip
logs whose destination IS ENI, otherwise push a record with
`isDeposit = false`. -/
def classifyOutflow (log : RawLog) : Option TransferRecord :=
  match log.parsed with
  | none => none
  | some p =>
    if isDestinationENI p.extData then none
    else
      some { txHash := log.transactionHash, blockNumber := log.blockNumber,
             sender := p.sender, recipient := p.recipient,
             token := p.inputToken, amount := p.inputAmount, isDeposit := false }

/-- `inflowAdapter(chain)` applied to `(fromBlock, toBlock)`: scan the chain
and classify each log in inflow mode. -/
def inflowAdapter (fetch : Nat → Nat → Except E (List RawLog)) (chain : String)
    (fromBlock toBlock : Nat) : Except E (List TransferRecord) :=
  match (getLogsSafe fetch chain fromBlock toBlock).1 with
  | .error err => .error err
  | .ok logs => .ok (logs.filterMap classifyInflow)

/-- `outflowAdapter()` applied to `(fromBlock, toBlock)`: scan the ENI chain
(chunk size from the table default) and classify each log in outflow mode. -/
def outflowAdapter (fetch : Nat → Nat → Except E (List RawLog))
    (fromBlock toBlock : Nat) : Except E (List TransferRecord) :=
  match (getLogsSafe fetch "eni" fromBlock toBlock).1 with
  | .error err => .error err
  | .ok logs => .ok (logs.filterMap classifyOutflow)

/-! ### Concrete log-source behaviours and example logs used in evaluations -/

/-- A log source refusing any window of 1502 or more blocks and returning no
logs on smaller windows (exercises the shrink path). -/
def fetchGap : Nat → Nat → Except String (List RawLog) :=
  fun s t => if 1502 ≤ t - s + 1 then .error "window too large" else .ok []

/-- A parsed example event whose `extData` decodes to `"xyz"`: the text holds
no `c=` key, so its destination chain id is undecodable. -/
def eventXyz : ParsedEvent :=
  { sender := "0xSender", recipient := "0xRecipient", inputToken := "0xTokenIn",
    outputToken := "0xTokenOut", inputAmount := 5,
    extData := { utf8 := some "xyz", fallback := none } }

/-- A raw log carrying `eventXyz`. -/
def logXyz : RawLog :=
  { transactionHash := "0xtx1", blockNumber := 7, parsed := some eventXyz }

/-- A log source yielding exactly `logXyz` on every window. -/
def fetchXyz : Nat → Nat → Except String (List RawLog) := fun _ _ => .ok [logXyz]

/-- A parsed example event whose `extData` decodes to `"r=1&c=173&x=9"`:
destination chain id 173. -/
def eventEx : ParsedEvent :=
  { sender := "0xAlice", recipient := "0xBob", inputToken := "0xUSDC",
    outputToken := "0xUSDT", inputAmount := 9,
    extData := { utf8 := some "r=1&c=173&x=9", fallback := none } }

/-- A raw log carrying `eventEx`. -/
def logEx : RawLog :=
  { transactionHash := "0xtx2", blockNumber := 11, parsed := some eventEx }

/-- A log source yielding exactly `logEx` on every window. -/
def fetchEx : Nat → Nat → Except String (List RawLog) := fun _ _ => .ok [logEx]

/-- A log source yielding, on every nonempty window, one unparsable log at the
window's start block (its logs are sorted and within the window). -/
def fetchMono : Nat → Nat → Except String (List RawLog) :=
  fun s t =>
    .ok (if s ≤ t then [{ transactionHash := "0xm", blockNumber := s, parsed := none }] else [])

/-! ### Lemmas about the retry loop `fetchShrink` -/

/-- A successful first attempt returns those logs with a single-call trace. -/
theorem fetchShrink_ok_trace (fetch : Nat → Nat → Except E (List RawLog))
    {s t : Nat} {ls : List RawLog} (h : fetch s t = .ok ls) :
    fetchShrink fetch s t = (.ok ls, [(s, t)]) := by
  rw [fetchShrink, h]

/-- A failing attempt at size at most 50 throws at once, with nothing further
attempted. -/
theorem fetchShrink_error_small (fetch : Nat → Nat → Except E (List RawLog))
    {s t : Nat} {err : E} (h : fetch s t = .error err) (hsmall : t - s + 1 ≤ 50) :
    fetchShrink fetch s t = (.error err, [(s, t)]) := by
  rw [fetchShrink, h]
  simp [hsmall]

/-- Error and success characterisation of the retry loop: a propagated error
is the fetch's own error at a recorded call of size at most 50, and a
successful loop recorded no failing call of size at most 50. -/
theorem fetchShrink_spec (fetch : Nat → Nat → Except E (List RawLog)) (s : Nat) :
    ∀ e : Nat,
      (∀ err, (fetchShrink fetch s e).1 = .error err →
        ∃ st ∈ (fetchShrink fetch s e).2, st.2 - st.1 + 1 ≤ 50 ∧ fetch st.1 st.2 = .error err) ∧
      (∀ ls, (fetchShrink fetch s e).1 = .ok ls →
        ∀ st ∈ (fetchShrink fetch s e).2,
          ¬(st.2 - st.1 + 1 ≤ 50 ∧ ∃ err, fetch st.1 st.2 = .error err)) := by
  intro e
  induction e using fetchShrink.induct fetch s with
  | case1 x logs hfx =>
    rw [fetchShrink_ok_trace fetch hfx]
    constructor
    · intro err herr; exact absurd herr (by simp)
    · intro ls _ st hst
      simp only [List.mem_singleton] at hst
      subst hst
      simp [hfx]
  | case2 x err hfx hsmall =>
    rw [fetchShrink_error_small fetch hfx hsmall]
    constructor
    · intro err' herr'
      refine ⟨(s, x), by simp, hsmall, ?_⟩
      simp only [Except.error.injEq] at herr'
      rw [hfx, herr']
    · intro ls hls; exact absurd hls (by simp)
  | case3 x err hfx hbig ih =>
    have hx : fetchShrink fetch s x =
        ((fetchShrink fetch s (shrinkEnd s x)).1,
          (s, x) :: (fetchShrink fetch s (shrinkEnd s x)).2) := by
      rw [fetchShrink, hfx]
      simp only [dif_neg hbig]
    rw [hx]
    constructor
    · intro err' herr'
      obtain ⟨st, hmem, h50, hfe⟩ := ih.1 err' herr'
      exact ⟨st, by simp [hmem], h50, hfe⟩
    · intro ls hls st hst
      simp only [List.mem_cons] at hst
      rcases hst with rfl | hst
      · intro ⟨h50, _⟩; exact hbig h50
      · exact ih.2 ls hls st hst

/-- A successful retry loop arises from a successful fetch on the same start
block with some end at most the original end. -/
theorem fetchShrink_ok_src (fetch : Nat → Nat → Except E (List RawLog)) (s : Nat) :
    ∀ e : Nat, ∀ ls, (fetchShrink fetch s e).1 = .ok ls →
      ∃ t, t ≤ e ∧ fetch s t = .ok ls := by
  intro e
  induction e using fetchShrink.induct fetch s with
  | case1 x logs hfx =>
    intro ls hls
    rw [fetchShrink_ok_trace fetch hfx] at hls
    simp only [Except.ok.injEq] at hls
    exact ⟨x, le_refl x, by rw [hfx, hls]⟩
  | case2 x err hfx hsmall =>
    intro ls hls
    rw [fetchShrink_error_small fetch hfx hsmall] at hls
    exact absurd hls (by simp)
  | case3 x err hfx hbig ih =>
    intro ls hls
    rw [fetchShrink, hfx] at hls
    simp only [dif_neg hbig] at hls
    obtain ⟨t, ht, hf⟩ := ih ls hls
    refine ⟨t, le_trans ht ?_, hf⟩
    simp only [shrinkEnd]
    omega

/-- If every fetch fails with the same error, the retry loop propagates it. -/
theorem fetchShrink_allFail (fetch : Nat → Nat → Except E (List RawLog))
    {err : E} (hf : ∀ s t, fetch s t = .error err) (s : Nat) :
    ∀ e : Nat, (fetchShrink fetch s e).1 = .error err := by
  intro e
  induction e using fetchShrink.induct fetch s with
  | case1 x logs hfx => rw [hf s x] at hfx; exact absurd hfx (by simp)
  | case2 x err' hfx hsmall =>
    have he : err' = err := Except.error.inj (hfx.symm.trans (hf s x))
    subst he
    rw [fetchShrink_error_small fetch hfx hsmall]
  | case3 x err' hfx hbig ih =>
    rw [fetchShrink, hfx]
    simp only [dif_neg hbig]
    exact ih

/-! ### Lemmas about the outer chunk loop -/

/-- The chunk-size table yields only positive sizes. -/
theorem getChunkSize_pos (chain : String) : 0 < getChunkSize chain := by
  unfold getChunkSize
  split <;> try norm_num
  split <;> try norm_num
  split <;> norm_num

/-- A nonempty range yields a chunk list starting at `fromBlock`. -/
theorem chunkStarts_cons {a b : Nat} (cs : Nat) (hab : a ≤ b) :
    chunkStarts a b cs =
      a :: (List.range ((b - a) / cs)).map (fun i => a + (i + 1) * cs) := by
  simp only [chunkStarts, if_pos hab, List.range_succ_eq_map, List.map_cons, List.map_map]
  simp [Function.comp, Nat.succ_eq_add_one]

/-- An empty range yields no chunks. -/
theorem chunkStarts_nil {a b : Nat} (cs : Nat) (hab : b < a) :
    chunkStarts a b cs = [] := by
  simp [chunkStarts, Nat.not_le.mpr hab]

/-- If every fetch fails with the same error and there is at least one chunk,
the outer loop propagates the error. -/
theorem runChunks_allFail (fetch : Nat → Nat → Except E (List RawLog))
    {err : E} (hf : ∀ s t, fetch s t = .error err) (cs b : Nat)
    (s : Nat) (rest : List Nat) :
    (runChunks fetch cs b (s :: rest)).1 = .error err := by
  have h1 := fetchShrink_allFail fetch hf s (min (s + cs - 1) b)
  rw [runChunks]
  rcases hfs : fetchShrink fetch s (min (s + cs - 1) b) with ⟨r, tr⟩
  rw [hfs] at h1
  simp only at h1
  subst h1
  simp

/-- If every fetch succeeds, the outer loop succeeds and attempts exactly one
call per chunk, the call for chunk start `s` covering
`[s, min (s + cs - 1) toBlock]`. -/
theorem runChunks_allOk (fetch : Nat → Nat → Except E (List RawLog))
    (hok : ∀ s t, ∃ ls, fetch s t = .ok ls) (cs b : Nat) :
    ∀ starts : List Nat,
      (runChunks fetch cs b starts).2 = starts.map (fun s => (s, min (s + cs - 1) b)) ∧
      ∃ ls, (runChunks fetch cs b starts).1 = .ok ls := by
  intro starts
  induction starts with
  | nil => exact ⟨rfl, [], rfl⟩
  | cons s rest ih =>
    obtain ⟨ls, hfs⟩ := hok s (min (s + cs - 1) b)
    rw [runChunks, fetchShrink_ok_trace fetch hfs]
    obtain ⟨htr, ls2, hok2⟩ := ih
    rcases hrc : runChunks fetch cs b rest with ⟨r2, tr2⟩
    rw [hrc] at htr hok2
    simp only at htr hok2
    subst hok2
    simp [htr]

/-- Error and success characterisation of the outer loop: a propagated error
is the fetch's own error at a recorded call of size at most 50, and a
successful scan recorded no failing call of size at most 50. -/
theorem runChunks_spec (fetch : Nat → Nat → Except E (List RawLog)) (cs b : Nat) :
    ∀ starts : List Nat,
      (∀ err, (runChunks fetch cs b starts).1 = .error err →
        ∃ st ∈ (runChunks fetch cs b starts).2,
          st.2 - st.1 + 1 ≤ 50 ∧ fetch st.1 st.2 = .error err) ∧
      (∀ ls, (runChunks fetch cs b starts).1 = .ok ls →
        ∀ st ∈ (runChunks fetch cs b starts).2,
          ¬(st.2 - st.1 + 1 ≤ 50 ∧ ∃ err, fetch st.1 st.2 = .error err)) := by
  intro starts
  induction starts with
  | nil =>
    constructor
    · intro err herr; exact absurd herr (by simp [runChunks])
    · intro ls _ st hst; exact absurd hst (by simp [runChunks])
  | cons s rest ih =>
    have hfs0 := fetchShrink_spec fetch s (min (s + cs - 1) b)
    rcases hfs : fetchShrink fetch s (min (s + cs - 1) b) with ⟨r, tr⟩
    rw [hfs] at hfs0
    rcases r with err0 | logs
    · rw [runChunks, hfs]
      constructor
      · intro err herr
        simp only [Except.error.injEq] at herr
        subst herr
        exact hfs0.1 err0 rfl
      · intro ls hls; exact absurd hls (by simp)
    · have h2 := hfs0.2 logs rfl
      rcases hrc : runChunks fetch cs b rest with ⟨r2, tr2⟩
      rw [hrc] at ih
      rw [runChunks, hfs, hrc]
      rcases r2 with err2 | more
      · constructor
        · intro err herr
          simp only [Except.error.injEq] at herr
          subst herr
          obtain ⟨st, hmem, hrest⟩ := ih.1 err2 rfl
          exact ⟨st, List.mem_append_right tr hmem, hrest⟩
        · intro ls hls; exact absurd hls (by simp)
      · constructor
        · intro err herr; exact absurd herr (by simp)
        · intro ls _ st hst
          rcases List.mem_append.mp hst with hmem | hmem
          · exact h2 st hmem
          · exact ih.2 more rfl st hmem

/-! ### Claim theorems: C4, C8, C10 -/

/-- C4 — The shrink-retry loop always terminates: each failed attempt on a
chunk of size greater than 50 strictly decreases the chunk size (the new end
is `start + (range / 2)`), and when every fetch attempt fails the scanner
returns the propagated error rather than looping forever. -/
theorem shrink_loop_terminates_with_error (E : Type) (fetch : Nat → Nat → Except E (List RawLog))
    (chain : String) (a b : Nat) (err : E)
    (hf : ∀ s t, fetch s t = .error err) (hab : a ≤ b) :
    (getLogsSafe fetch chain a b).1 = .error err ∧
    (∀ s t : Nat, 50 < t - s + 1 → shrinkEnd s t - s + 1 < t - s + 1) := by
  constructor
  · rw [getLogsSafe, chunkStarts_cons _ hab]
    exact runChunks_allFail fetch hf _ _ _ _
  · intro s t h
    simp only [shrinkEnd]
    omega

/-- Witness for C4 at a concrete always-failing fetch on `bsc`, range `[0, 0]`. -/
theorem shrink_loop_terminates_with_error_witness :
    (getLogsSafe (fun _ _ => .error "boom") "bsc" 0 0).1 = .error "boom" ∧
    (∀ s t : Nat, 50 < t - s + 1 → shrinkEnd s t - s + 1 < t - s + 1) :=
  shrink_loop_terminates_with_error String (fun _ _ => .error "boom") "bsc" 0 0 "boom"
    (fun _ _ => rfl) (Nat.le_refl 0)

/-- C8 — The chunk-size table: 400 for bsc, 1500 for polygon, 4000 for
arbitrum/optimism/base, default 3000 for every other chain (ethereum
included); and when no fetch fails, a scan of `[a, b]` with `a ≤ b` issues
exactly `⌈(b - a + 1) / chunkSize⌉` fetch calls, each spanning at most
`chunkSize` blocks. -/
theorem chunk_size_table_and_call_count (E : Type)
    (fetch : Nat → Nat → Except E (List RawLog)) (chain : String) (a b : Nat)
    (hok : ∀ s t, ∃ ls, fetch s t = .ok ls) (hab : a ≤ b) :
    getChunkSize "bsc" = 400 ∧ getChunkSize "polygon" = 1500 ∧
    getChunkSize "arbitrum" = 4000 ∧ getChunkSize "optimism" = 4000 ∧
    getChunkSize "base" = 4000 ∧ getChunkSize "ethereum" = 3000 ∧
    (∀ c, c ≠ "bsc" → c ≠ "polygon" → c ≠ "arbitrum" → c ≠ "optimism" →
      c ≠ "base" → getChunkSize c = 3000) ∧
    (getLogsSafe fetch chain a b).2.length =
      (b - a + 1 + (getChunkSize chain - 1)) / getChunkSize chain ∧
    (∀ st ∈ (getLogsSafe fetch chain a b).2, st.2 - st.1 + 1 ≤ getChunkSize chain) := by
  refine ⟨rfl, rfl, rfl, rfl, rfl, rfl, ?_, ?_, ?_⟩
  · intro c h1 h2 h3 h4 h5
    simp [getChunkSize, h1, h2, h3, h4, h5]
  · have hcs := getChunkSize_pos chain
    rw [getLogsSafe, (runChunks_allOk fetch hok _ _ _).1, List.length_map,
      chunkStarts_cons _ hab]
    simp only [List.length_cons, List.length_map, List.length_range]
    rcases Nat.exists_eq_add_of_le hcs with ⟨k, hk⟩
    rw [show b - a + 1 + (getChunkSize chain - 1) = (b - a) + getChunkSize chain by omega,
      Nat.add_div_right _ hcs]
  · intro st hst
    rw [getLogsSafe, (runChunks_allOk fetch hok _ _ _).1] at hst
    obtain ⟨s, _, rfl⟩ := List.mem_map.mp hst
    have := Nat.min_le_left (s + getChunkSize chain - 1) b
    have hcs := getChunkSize_pos chain
    simp only
    omega

/-- Witness for C8: an always-successful fetch on an unlisted chain over
`[0, 5999]` issues `⌈6000 / 3000⌉ = 2` calls. -/
theorem chunk_size_table_and_call_count_witness :
    (getLogsSafe (fun _ _ => (Except.ok [] : Except String (List RawLog))) "eni" 0 5999).2.length =
      (5999 - 0 + 1 + (getChunkSize "eni" - 1)) / getChunkSize "eni" ∧
    getChunkSize "eni" = 3000 :=
  ⟨(chunk_size_table_and_call_count String (fun _ _ => Except.ok []) "eni" 0 5999
      (fun _ _ => ⟨[], rfl⟩) (by norm_num)).2.2.2.2.2.2.2.1, rfl⟩

/-- C10 — An inverted range (`toBlock < fromBlock`) makes the scanner and both
adapters return the empty sequence with no fetch call attempted and no error. -/
theorem empty_range_no_fetch (E : Type) (fetch : Nat → Nat → Except E (List RawLog))
    (chain : String) (a b : Nat) (h : b < a) :
    getLogsSafe fetch chain a b = (.ok [], []) ∧
    inflowAdapter fetch chain a b = .ok [] ∧
    outflowAdapter fetch a b = .ok [] := by
  have h1 : getLogsSafe fetch chain a b = (.ok [], []) := by
    rw [getLogsSafe, chunkStarts_nil _ h]; rfl
  have h2 : getLogsSafe fetch "eni" a b = (.ok [], []) := by
    rw [getLogsSafe, chunkStarts_nil _ h]; rfl
  refine ⟨h1, ?_, ?_⟩
  · rw [inflowAdapter, h1]; rfl
  · rw [outflowAdapter, h2]; rfl

/-- Witness for C10 at the inverted range `[1, 0]`. -/
theorem empty_range_no_fetch_witness :
    getLogsSafe (fun _ _ => Except.error "e") "ethereum" 1 0 = (.ok [], []) ∧
    inflowAdapter (fun _ _ => Except.error "e") "ethereum" 1 0 = .ok [] ∧
    outflowAdapter (fun _ _ => Except.error "e") 1 0 = .ok [] :=
  empty_range_no_fetch String (fun _ _ => Except.error "e") "ethereum" 1 0 (by norm_num)

/-- C3 — The scan fails exactly when some fetch attempt fails on a chunk of
size `end - start + 1` at most 50: a propagated error is the underlying
fetch's own error at such an attempted call, any failing attempt of size at
most 50 among the attempted calls makes the scan fail, and such a failure is
propagated immediately with no further shrink attempt. -/
theorem scan_error_iff_small_chunk_failure (E : Type)
    (fetch : Nat → Nat → Except E (List RawLog)) (chain : String) (a b : Nat) :
    (∀ err, (getLogsSafe fetch chain a b).1 = .error err →
      ∃ st ∈ (getLogsSafe fetch chain a b).2,
        st.2 - st.1 + 1 ≤ 50 ∧ fetch st.1 st.2 = .error err) ∧
    ((∃ st ∈ (getLogsSafe fetch chain a b).2,
        st.2 - st.1 + 1 ≤ 50 ∧ ∃ err, fetch st.1 st.2 = .error err) →
      ∃ err, (getLogsSafe fetch chain a b).1 = .error err) ∧
    (∀ s t err, fetch s t = .error err → t - s + 1 ≤ 50 →
      fetchShrink fetch s t = (.error err, [(s, t)])) := by
  have hrc := runChunks_spec fetch (getChunkSize chain) b
    (chunkStarts a b (getChunkSize chain))
  refine ⟨?_, ?_, ?_⟩
  · intro err herr
    exact hrc.1 err herr
  · intro hex
    rcases hres : (getLogsSafe fetch chain a b).1 with err | ls
    · exact ⟨err, rfl⟩
    · obtain ⟨st, hmem, hsmall, herr⟩ := hex
      exact absurd ⟨hsmall, herr⟩ (hrc.2 ls hres st hmem)
  · intro s t err herr hsmall
    exact fetchShrink_error_small fetch herr hsmall

/-- Witness for C3: an always-failing fetch on ethereum over `[0, 60]` fails
after the attempts `(0, 60)` and `(0, 30)`, the latter of size `31 ≤ 50`. -/
theorem scan_error_iff_small_chunk_failure_witness :
    ∃ st ∈ (getLogsSafe (fun _ _ => (Except.error "boom" : Except String (List RawLog)))
        "ethereum" 0 60).2,
      st.2 - st.1 + 1 ≤ 50 ∧
      (fun (_ _ : Nat) => (Except.error "boom" : Except String (List RawLog))) st.1 st.2 =
        .error "boom" := by
  have h := (scan_error_iff_small_chunk_failure String
    (fun _ _ => (Except.error "boom" : Except String (List RawLog))) "ethereum" 0 60).1
  apply h "boom"
  have h1 : fetchShrink (fun _ _ => (Except.error "boom" : Except String (List RawLog)))
      0 60 = (.error "boom", [(0, 60), (0, 30)]) := by
    rw [fetchShrink, fetchShrink]
    norm_num [shrinkEnd]
  show (runChunks (fun _ _ => (Except.error "boom" : Except String (List RawLog)))
      3000 60 [0]).1 = .error "boom"
  rw [runChunks]
  norm_num [h1]

/-- C1 — Refutation on the code: with a log source refusing windows of 1502
or more blocks, scanning ethereum (chunk size 3000) over `[0, 2999]` attempts
`(0, 2999)` (refused) and `(0, 1500)` (accepted), then SUCCEEDS — yet no
successful fetch call covers block 2000, so the concatenated sub-ranges do
not cover `[0, 2999]`: the outer loop advances by the chunk size instead of
continuing from `newEnd + 1`, skipping blocks 1501–2999. -/
theorem scanner_coverage_gap :
    getLogsSafe fetchGap "ethereum" 0 2999 = (.ok [], [(0, 2999), (0, 1500)]) ∧
    (∃ ls, (getLogsSafe fetchGap "ethereum" 0 2999).1 = .ok ls) ∧
    (∀ st ∈ (getLogsSafe fetchGap "ethereum" 0 2999).2,
      ¬((∃ ls, fetchGap st.1 st.2 = .ok ls) ∧ st.1 ≤ 2000 ∧ 2000 ≤ st.2)) := by
  have h1 : fetchShrink fetchGap 0 2999 = (.ok [], [(0, 2999), (0, 1500)]) := by
    rw [fetchShrink, fetchShrink]
    norm_num [fetchGap, shrinkEnd]
  have h : getLogsSafe fetchGap "ethereum" 0 2999 = (.ok [], [(0, 2999), (0, 1500)]) := by
    show runChunks fetchGap 3000 2999 [0] = _
    rw [runChunks]
    norm_num [h1]
    rw [runChunks]
  refine ⟨h, ⟨[], by rw [h]⟩, ?_⟩
  intro st hst
  rw [h] at hst
  simp only [List.mem_cons, List.mem_singleton, List.not_mem_nil, or_false] at hst
  rcases hst with rfl | rfl
  · rintro ⟨⟨ls, hok⟩, -, -⟩
    rw [show fetchGap 0 2999 = .error "window too large" by norm_num [fetchGap]] at hok
    exact absurd hok (by simp)
  · rintro ⟨-, -, hle⟩
    norm_num at hle

/-! ### Sortedness of a successful scan (C9) -/

/-- Separation of consecutive chunk starts: each is at least `cs` before the
next. -/
theorem chunkStarts_sep (a b cs : Nat) :
    (chunkStarts a b cs).Pairwise (fun x y => x + cs ≤ y) := by
  unfold chunkStarts
  split
  · rw [List.pairwise_map]
    refine (List.pairwise_lt_range _).imp ?_
    intro i j hij
    have h1 : (i + 1) * cs ≤ j * cs := Nat.mul_le_mul_right cs hij
    calc a + i * cs + cs = a + (i + 1) * cs := by ring
    _ ≤ a + j * cs := Nat.add_le_add_left h1 a
  · exact List.Pairwise.nil

/-- On a log source whose per-window results are sorted and in-window, a
successful outer loop over separated chunk starts returns a sorted sequence,
each log within the chunk that produced it. -/
theorem runChunks_ok_sorted (fetch : Nat → Nat → Except E (List RawLog))
    (cs b : Nat) (hcs : 0 < cs)
    (hs : ∀ s t ls, fetch s t = .ok ls →
      ls.Pairwise (fun x y => x.blockNumber ≤ y.blockNumber) ∧
      ∀ l ∈ ls, s ≤ l.blockNumber ∧ l.blockNumber ≤ t) :
    ∀ starts : List Nat, starts.Pairwise (fun x y => x + cs ≤ y) →
      ∀ ls, (runChunks fetch cs b starts).1 = .ok ls →
        ls.Pairwise (fun x y => x.blockNumber ≤ y.blockNumber) ∧
        ∀ l ∈ ls, ∃ s ∈ starts, s ≤ l.blockNumber ∧ l.blockNumber ≤ s + cs - 1 := by
  intro starts
  induction starts with
  | nil =>
    intro _ ls hls
    rw [runChunks] at hls
    simp only [Except.ok.injEq] at hls
    subst hls
    exact ⟨List.Pairwise.nil, by simp⟩
  | cons s rest ih =>
    intro hp ls hls
    rw [List.pairwise_cons] at hp
    rcases hfs : fetchShrink fetch s (min (s + cs - 1) b) with ⟨r, tr⟩
    rw [runChunks, hfs] at hls
    rcases r with err | logs
    · exact absurd hls (by simp)
    · rcases hrc : runChunks fetch cs b rest with ⟨r2, tr2⟩
      rw [hrc] at hls
      rcases r2 with err2 | more
      · exact absurd hls (by simp)
      · simp only [Except.ok.injEq] at hls
        subst hls
        have hsrc := fetchShrink_ok_src fetch s (min (s + cs - 1) b) logs (by rw [hfs])
        obtain ⟨t, ht, hft⟩ := hsrc
        obtain ⟨hsort1, hbnd1⟩ := hs s t logs hft
        have hbnd1' : ∀ l ∈ logs, s ≤ l.blockNumber ∧ l.blockNumber ≤ s + cs - 1 := by
          intro l hl
          have h2 := hbnd1 l hl
          have h3 : t ≤ s + cs - 1 := le_trans ht (Nat.min_le_left _ _)
          omega
        obtain ⟨hsort2, hbnd2⟩ := ih hp.2 more (by rw [hrc])
        constructor
        · rw [List.pairwise_append]
          refine ⟨hsort1, hsort2, ?_⟩
          intro x hx y hy
          obtain ⟨s2, hs2mem, hs2le, _⟩ := hbnd2 y hy
          have hsep := hp.1 s2 hs2mem
          have hx2 := (hbnd1' x hx).2
          omega
        · intro l hl
          rcases List.mem_append.mp hl with hl | hl
          · exact ⟨s, List.mem_cons_self s rest, hbnd1' l hl⟩
          · obtain ⟨s2, hs2mem, hs2b⟩ := hbnd2 l hl
            exact ⟨s2, List.mem_cons_of_mem s hs2mem, hs2b⟩

/-- `classifyInflow` copies the block number from the log it was built from. -/
theorem classifyInflow_blockNumber (l : RawLog) (r : TransferRecord)
    (h : classifyInflow l = some r) : r.blockNumber = l.blockNumber := by
  unfold classifyInflow at h
  split at h
  · exact absurd h (by simp)
  · split at h
    · simp only [Option.some.injEq] at h
      rw [← h]
    · exact absurd h (by simp)

/-- `classifyOutflow` copies the block number from the log it was built from. -/
theorem classifyOutflow_blockNumber (l : RawLog) (r : TransferRecord)
    (h : classifyOutflow l = some r) : r.blockNumber = l.blockNumber := by
  unfold classifyOutflow at h
  split at h
  · exact absurd h (by simp)
  · split at h
    · exact absurd h (by simp)
    · simp only [Option.some.injEq] at h
      rw [← h]

/-- Filtering-and-mapping a block-number-sorted log list through a classifier
that copies block numbers yields a block-number-sorted record list. -/
theorem pairwise_blockNumber_filterMap (f : RawLog → Option TransferRecord)
    (hf : ∀ l r, f l = some r → r.blockNumber = l.blockNumber) :
    ∀ ls : List RawLog, ls.Pairwise (fun x y => x.blockNumber ≤ y.blockNumber) →
      (ls.filterMap f).Pairwise (fun x y => x.blockNumber ≤ y.blockNumber) := by
  intro ls
  induction ls with
  | nil => intro _; simp
  | cons l rest ih =>
    intro hp
    rw [List.pairwise_cons] at hp
    rw [List.filterMap_cons]
    cases hfl : f l with
    | none => exact ih hp.2
    | some r =>
      rw [List.pairwise_cons]
      refine ⟨?_, ih hp.2⟩
      intro r2 hr2
      obtain ⟨l2, hl2mem, hfl2⟩ := List.mem_filterMap.mp hr2
      rw [hf l r hfl, hf l2 r2 hfl2]
      exact hp.1 l2 hl2mem

/-- C9 — Chunks are processed in strictly ascending start-block order, and if
the log source returns each window's entries sorted by block number and
within the window, a successful scan returns a sequence non-decreasing by
block number, as do the transfer records both adapters derive from it. -/
theorem scan_order_sorted (E : Type) (fetch : Nat → Nat → Except E (List RawLog))
    (chain : String) (a b : Nat)
    (hs : ∀ s t ls, fetch s t = .ok ls →
      ls.Pairwise (fun x y => x.blockNumber ≤ y.blockNumber) ∧
      ∀ l ∈ ls, s ≤ l.blockNumber ∧ l.blockNumber ≤ t) :
    (chunkStarts a b (getChunkSize chain)).Pairwise (· < ·) ∧
    (∀ ls, (getLogsSafe fetch chain a b).1 = .ok ls →
      ls.Pairwise (fun x y => x.blockNumber ≤ y.blockNumber)) ∧
    (∀ rs, inflowAdapter fetch chain a b = .ok rs →
      rs.Pairwise (fun x y => x.blockNumber ≤ y.blockNumber)) ∧
    (∀ rs, outflowAdapter fetch a b = .ok rs →
      rs.Pairwise (fun x y => x.blockNumber ≤ y.blockNumber)) := by
  have hsorted : ∀ c ls, (getLogsSafe fetch c a b).1 = .ok ls →
      ls.Pairwise (fun x y => x.blockNumber ≤ y.blockNumber) := by
    intro c ls hls
    exact (runChunks_ok_sorted fetch (getChunkSize c) b (getChunkSize_pos c) hs
      (chunkStarts a b (getChunkSize c)) (chunkStarts_sep a b (getChunkSize c)) ls hls).1
  refine ⟨?_, hsorted chain, ?_, ?_⟩
  · refine (chunkStarts_sep a b (getChunkSize chain)).imp ?_
    intro x y h
    have := getChunkSize_pos chain
    omega
  · intro rs hrs
    unfold inflowAdapter at hrs
    rcases hscan : (getLogsSafe fetch chain a b).1 with err | logs
    · rw [hscan] at hrs; exact absurd hrs (by simp)
    · rw [hscan] at hrs
      simp only [Except.ok.injEq] at hrs
      subst hrs
      exact pairwise_blockNumber_filterMap classifyInflow classifyInflow_blockNumber
        logs (hsorted chain logs hscan)
  · intro rs hrs
    unfold outflowAdapter at hrs
    rcases hscan : (getLogsSafe fetch "eni" a b).1 with err | logs
    · rw [hscan] at hrs; exact absurd hrs (by simp)
    · rw [hscan] at hrs
      simp only [Except.ok.injEq] at hrs
      subst hrs
      exact pairwise_blockNumber_filterMap classifyOutflow classifyOutflow_blockNumber
        logs (hsorted "eni" logs hscan)

/-- Witness for C9 at `fetchMono` (one in-window log per window) over
`[0, 5999]` on ethereum. -/
theorem scan_order_sorted_witness :
    (chunkStarts 0 5999 (getChunkSize "ethereum")).Pairwise (· < ·) := by
  have hs : ∀ s t ls, fetchMono s t = .ok ls →
      ls.Pairwise (fun x y => x.blockNumber ≤ y.blockNumber) ∧
      ∀ l ∈ ls, s ≤ l.blockNumber ∧ l.blockNumber ≤ t := by
    intro s t ls h
    simp only [fetchMono, Except.ok.injEq] at h
    subst h
    by_cases hst : s ≤ t
    · simp [hst]
    · simp [hst]
  exact (scan_order_sorted String fetchMono "ethereum" 0 5999 hs).1

/-! ### Classifier lemmas and claims C2, C5, C6 -/

/-- The target test reads the decoded destination id: it is ENI iff the id
decodes to exactly 173. -/
theorem isDestinationENI_iff (e : ExtData) :
    isDestinationENI e = true ↔ getDestinationChainId e = some 173 := by
  rw [isDestinationENI]
  exact beq_iff_eq

/-- Inflow classification of a parsed log with ENI destination: a record with
every field copied verbatim and `isDeposit = true`. -/
theorem classifyInflow_eq_some (log : RawLog) (p : ParsedEvent)
    (hp : log.parsed = some p) (hb : isDestinationENI p.extData = true) :
    classifyInflow log =
      some { txHash := log.transactionHash, blockNumber := log.blockNumber,
             sender := p.sender, recipient := p.recipient, token := p.inputToken,
             amount := p.inputAmount, isDeposit := true } := by
  unfold classifyInflow
  rw [hp]
  simp [hb]

/-- Inflow classification of a parsed log whose destination is not ENI: skip. -/
theorem classifyInflow_eq_none (log : RawLog) (p : ParsedEvent)
    (hp : log.parsed = some p) (hb : isDestinationENI p.extData = false) :
    classifyInflow log = none := by
  unfold classifyInflow
  rw [hp]
  simp [hb]

/-- Outflow classification of a parsed log with ENI destination: skip. -/
theorem classifyOutflow_eq_none (log : RawLog) (p : ParsedEvent)
    (hp : log.parsed = some p) (hb : isDestinationENI p.extData = true) :
    classifyOutflow log = none := by
  unfold classifyOutflow
  rw [hp]
  simp [hb]

/-- Outflow classification of a parsed log whose destination is not ENI: a
record with every field copied verbatim and `isDeposit = false`. -/
theorem classifyOutflow_eq_some (log : RawLog) (p : ParsedEvent)
    (hp : log.parsed = some p) (hb : isDestinationENI p.extData = false) :
    classifyOutflow log =
      some { txHash := log.transactionHash, blockNumber := log.blockNumber,
             sender := p.sender, recipient := p.recipient, token := p.inputToken,
             amount := p.inputAmount, isDeposit := false } := by
  unfold classifyOutflow
  rw [hp]
  simp [hb]

/-- C2 — Refutation on the code: for the log whose `extData` decodes to
`"xyz"` (destination id undecodable), the inflow classifier indeed emits
nothing, but the outflow adapter EMITS a record (`isDeposit = false`): an
undecodable destination is treated as a non-ENI destination, not excluded. -/
theorem undecodable_outflow_emits :
    getDestinationChainId eventXyz.extData = none ∧
    classifyInflow logXyz = none ∧
    outflowAdapter fetchXyz 0 0 =
      .ok [{ txHash := "0xtx1", blockNumber := 7, sender := "0xSender",
             recipient := "0xRecipient", token := "0xTokenIn", amount := 5,
             isDeposit := false }] := by
  refine ⟨rfl, rfl, ?_⟩
  have h1 : fetchShrink fetchXyz 0 0 = (.ok [logXyz], [(0, 0)]) := by
    rw [fetchShrink]
    rfl
  have h2 : getLogsSafe fetchXyz "eni" 0 0 = (.ok [logXyz], [(0, 0)]) := by
    show runChunks fetchXyz 3000 0 [0] = _
    rw [runChunks]
    norm_num [h1]
    rw [runChunks]
  unfold outflowAdapter
  rw [h2]
  rfl

/-- C2 amended — An event with undecodable destination id is never classified
in inflow mode, but in outflow mode it IS emitted, as a withdrawal record
with all fields copied verbatim. -/
theorem undecodable_inflow_closed_outflow_open (log : RawLog) (p : ParsedEvent)
    (hp : log.parsed = some p) (hd : getDestinationChainId p.extData = none) :
    classifyInflow log = none ∧
    classifyOutflow log =
      some { txHash := log.transactionHash, blockNumber := log.blockNumber,
             sender := p.sender, recipient := p.recipient, token := p.inputToken,
             amount := p.inputAmount, isDeposit := false } := by
  have hb : isDestinationENI p.extData = false := by
    rw [isDestinationENI, hd]
    rfl
  exact ⟨classifyInflow_eq_none log p hp hb, classifyOutflow_eq_some log p hp hb⟩

/-- Witness for the amended C2 at the concrete `"xyz"` log. -/
theorem undecodable_inflow_closed_outflow_open_witness :
    classifyInflow logXyz = none ∧
    classifyOutflow logXyz =
      some { txHash := logXyz.transactionHash, blockNumber := logXyz.blockNumber,
             sender := eventXyz.sender, recipient := eventXyz.recipient,
             token := eventXyz.inputToken, amount := eventXyz.inputAmount,
             isDeposit := false } :=
  undecodable_inflow_closed_outflow_open logXyz eventXyz rfl rfl

/-- C5 — Direction partition: a parsed event with decodable destination id
`D` is classified inflow iff `D = 173`, outflow iff `D ≠ 173`, and never by
both modes. -/
theorem direction_partition (log : RawLog) (p : ParsedEvent) (D : Nat)
    (hp : log.parsed = some p) (hd : getDestinationChainId p.extData = some D) :
    ((∃ r, classifyInflow log = some r) ↔ D = 173) ∧
    ((∃ r, classifyOutflow log = some r) ↔ D ≠ 173) ∧
    ¬((∃ r, classifyInflow log = some r) ∧ (∃ r, classifyOutflow log = some r)) := by
  by_cases hD : D = 173
  · subst hD
    have hb : isDestinationENI p.extData = true := (isDestinationENI_iff _).mpr hd
    rw [classifyInflow_eq_some log p hp hb]
    rw [classifyOutflow_eq_none log p hp hb]
    simp
  · have hb : isDestinationENI p.extData = false := by
      rcases hbe : isDestinationENI p.extData with _ | _
      · rfl
      · rw [(isDestinationENI_iff _).mp hbe] at hd
        simp only [Option.some.injEq] at hd
        exact absurd hd.symm hD
    rw [classifyInflow_eq_none log p hp hb]
    rw [classifyOutflow_eq_some log p hp hb]
    simp [hD]

/-- Witness for C5 at the concrete `"r=1&c=173&x=9"` log (`D = 173`). -/
theorem direction_partition_witness :
    ((∃ r, classifyInflow logEx = some r) ↔ (173 : Nat) = 173) ∧
    ((∃ r, classifyOutflow logEx = some r) ↔ (173 : Nat) ≠ 173) ∧
    ¬((∃ r, classifyInflow logEx = some r) ∧ (∃ r, classifyOutflow logEx = some r)) :=
  direction_partition logEx eventEx 173 rfl rfl

/-- C6 — Every emitted record copies its fields verbatim from the decoded
event and the log envelope, with `isDeposit = true` in inflow mode and
`isDeposit = false` in outflow mode. -/
theorem record_fields_verbatim (log : RawLog) (p : ParsedEvent)
    (hp : log.parsed = some p) :
    (∀ r, classifyInflow log = some r →
      r.txHash = log.transactionHash ∧ r.blockNumber = log.blockNumber ∧
      r.sender = p.sender ∧ r.recipient = p.recipient ∧ r.token = p.inputToken ∧
      r.amount = p.inputAmount ∧ r.isDeposit = true) ∧
    (∀ r, classifyOutflow log = some r →
      r.txHash = log.transactionHash ∧ r.blockNumber = log.blockNumber ∧
      r.sender = p.sender ∧ r.recipient = p.recipient ∧ r.token = p.inputToken ∧
      r.amount = p.inputAmount ∧ r.isDeposit = false) := by
  rcases hb : isDestinationENI p.extData with _ | _
  · constructor
    · intro r hr
      rw [classifyInflow_eq_none log p hp hb] at hr
      exact absurd hr (by simp)
    · intro r hr
      rw [classifyOutflow_eq_some log p hp hb] at hr
      simp only [Option.some.injEq] at hr
      subst hr
      exact ⟨rfl, rfl, rfl, rfl, rfl, rfl, rfl⟩
  · constructor
    · intro r hr
      rw [classifyInflow_eq_some log p hp hb] at hr
      simp only [Option.some.injEq] at hr
      subst hr
      exact ⟨rfl, rfl, rfl, rfl, rfl, rfl, rfl⟩
    · intro r hr
      rw [classifyOutflow_eq_none log p hp hb] at hr
      exact absurd hr (by simp)

/-- Witness for C6: the claim's end-to-end example — the `"r=1&c=173&x=9"`
log scanned in inflow mode yields exactly one record, `isDeposit = true`,
with all fields copied, and it satisfies the verbatim-copy property. -/
theorem record_fields_verbatim_witness :
    (∀ r, classifyInflow logEx = some r →
      r.txHash = logEx.transactionHash ∧ r.blockNumber = logEx.blockNumber ∧
      r.sender = eventEx.sender ∧ r.recipient = eventEx.recipient ∧
      r.token = eventEx.inputToken ∧ r.amount = eventEx.inputAmount ∧
      r.isDeposit = true) ∧
    inflowAdapter fetchEx "ethereum" 0 0 =
      .ok [{ txHash := "0xtx2", blockNumber := 11, sender := "0xAlice",
             recipient := "0xBob", token := "0xUSDC", amount := 9,
             isDeposit := true }] := by
  refine ⟨(record_fields_verbatim logEx eventEx rfl).1, ?_⟩
  have h1 : fetchShrink fetchEx 0 0 = (.ok [logEx], [(0, 0)]) := by
    rw [fetchShrink]
    rfl
  have h2 : getLogsSafe fetchEx "ethereum" 0 0 = (.ok [logEx], [(0, 0)]) := by
    show runChunks fetchEx 3000 0 [0] = _
    rw [runChunks]
    norm_num [h1]
    rw [runChunks]
  unfold inflowAdapter
  rw [h2]
  rfl

/-! ### The routing regex: first-match characterisation (C7) -/

/-- Shifting a `c=(\d+)` occurrence across a cons cell. -/
theorem cMatchAt_cons_succ (c : Char) (rest : List Char) (j : Nat) :
    cMatchAt (c :: rest) (j + 1) ↔ cMatchAt rest j := by
  unfold cMatchAt
  rw [show j + 1 + 1 = j + 2 from rfl, show j + 1 + 2 = j + 3 from rfl,
    show ∀ (l : List Char) (x : Char), (x :: l)[j + 1]? = l[j]? from
      fun l x => List.getElem?_cons_succ,
    show ∀ (l : List Char) (x : Char), (x :: l)[j + 2]? = l[j + 1]? from
      fun l x => List.getElem?_cons_succ,
    show ∀ (l : List Char) (x : Char), (x :: l)[j + 3]? = l[j + 2]? from
      fun l x => List.getElem?_cons_succ]

/-- Shifting the captured value across a cons cell. -/
theorem specValueAt_cons_succ (c : Char) (rest : List Char) (j : Nat) :
    specValueAt (c :: rest) (j + 1) = specValueAt rest j := by
  unfold specValueAt
  rw [show j + 1 + 2 = j + 2 + 1 from rfl, List.drop_succ_cons]

/-- At position 0 the `^` alternative applies: a match is just a `c=(\d+)`
occurrence. -/
theorem specMatchAt_zero (l : List Char) : specMatchAt l 0 ↔ cMatchAt l 0 := by
  simp [specMatchAt]

/-- A match at position 1 of `c :: rest` needs `c` to be a delimiter. -/
theorem specMatchAt_cons_one (c : Char) (rest : List Char) :
    specMatchAt (c :: rest) 1 ↔ (isDelim c = true ∧ cMatchAt rest 0) := by
  unfold specMatchAt
  rw [show cMatchAt (c :: rest) 1 ↔ cMatchAt rest 0 from cMatchAt_cons_succ c rest 0,
    show (1 : Nat) - 1 = 0 from rfl, List.getElem?_cons_zero]
  simp

/-- Shifting a delimiter-alternative match across a cons cell. -/
theorem specMatchAt_cons_succ_succ (c : Char) (rest : List Char) (j : Nat) :
    specMatchAt (c :: rest) (j + 2) ↔ specMatchAt rest (j + 1) := by
  unfold specMatchAt
  rw [show j + 2 - 1 = j + 1 from rfl, show j + 1 - 1 = j from rfl,
    show cMatchAt (c :: rest) (j + 2) ↔ cMatchAt rest (j + 1) from
      cMatchAt_cons_succ c rest (j + 1),
    show ∀ (l : List Char) (x : Char), (x :: l)[j + 1]? = l[j]? from
      fun l x => List.getElem?_cons_succ]
  simp

/-- `matchCAt` decides exactly whether a `c=(\d+)` occurrence sits at the
head, and returns the captured value. -/
theorem matchCAt_iff (l : List Char) :
    (∀ n, matchCAt l = some n ↔ (cMatchAt l 0 ∧ n = specValueAt l 0)) ∧
    (matchCAt l = none ↔ ¬ cMatchAt l 0) := by
  match l with
  | [] => simp [matchCAt, cMatchAt]
  | [c] => simp [matchCAt, cMatchAt]
  | c :: e :: rest =>
    by_cases hce : c = 'c' ∧ e = '='
    · obtain ⟨rfl, rfl⟩ := hce
      rcases rest with _ | ⟨d, rest2⟩
      · simp [matchCAt, cMatchAt]
      · by_cases hd : Char.isDigit d
        · simp [matchCAt, cMatchAt, specValueAt, hd, List.takeWhile_cons, eq_comm]
        · simp [matchCAt, cMatchAt, specValueAt, hd, List.takeWhile_cons]
    · have h0 : matchCAt (c :: e :: rest) = none := by
        simp [matchCAt, hce]
      have h1 : ¬ cMatchAt (c :: e :: rest) 0 := by
        rintro ⟨hc, he, -⟩
        rw [List.getElem?_cons_zero, Option.some.injEq] at hc
        rw [show ((c :: e :: rest)[1]? : Option Char) = (e :: rest)[0]? from
            List.getElem?_cons_succ,
          List.getElem?_cons_zero, Option.some.injEq] at he
        exact hce ⟨hc, he⟩
      simp [h0, h1]

/-- When position 1 of `c :: rest` holds no match, matches of `c :: rest`
at positive positions correspond exactly, with their values and first-ness,
to matches of `rest` at positive positions. -/
theorem shift_correspondence (c : Char) (rest : List Char)
    (h1 : ¬ specMatchAt (c :: rest) 1) :
    (∀ n, ((∃ j, 0 < j ∧ specMatchAt rest j ∧
        (∀ i, 0 < i → i < j → ¬ specMatchAt rest i) ∧ n = specValueAt rest j) ↔
      (∃ j, 0 < j ∧ specMatchAt (c :: rest) j ∧
        (∀ i, 0 < i → i < j → ¬ specMatchAt (c :: rest) i) ∧
        n = specValueAt (c :: rest) j))) ∧
    ((∀ j, 0 < j → ¬ specMatchAt rest j) ↔
      (∀ j, 0 < j → ¬ specMatchAt (c :: rest) j)) := by
  have hcorr : ∀ j, 0 < j → (specMatchAt (c :: rest) (j + 1) ↔ specMatchAt rest j) := by
    intro j hj
    obtain ⟨k, rfl⟩ : ∃ k, j = k + 1 := ⟨j - 1, by omega⟩
    exact specMatchAt_cons_succ_succ c rest k
  constructor
  · intro n
    constructor
    · rintro ⟨j, hj, hm, hfirst, hv⟩
      refine ⟨j + 1, Nat.succ_pos j, (hcorr j hj).mpr hm, ?_, ?_⟩
      · intro i hi hij
        obtain ⟨k, rfl⟩ : ∃ k, i = k + 1 := ⟨i - 1, by omega⟩
        rcases Nat.eq_zero_or_pos k with rfl | hk
        · exact h1
        · rw [hcorr k hk]
          exact hfirst k hk (by omega)
      · rw [hv, specValueAt_cons_succ]
    · rintro ⟨j, hj, hm, hfirst, hv⟩
      obtain ⟨k, rfl⟩ : ∃ k, j = k + 1 := ⟨j - 1, by omega⟩
      have hk : 0 < k := by
        rcases Nat.eq_zero_or_pos k with rfl | hk
        · exact absurd hm h1
        · exact hk
      refine ⟨k, hk, (hcorr k hk).mp hm, ?_, ?_⟩
      · intro i hi hik
        rw [← hcorr i hi]
        exact hfirst (i + 1) (Nat.succ_pos i) (by omega)
      · rw [hv, specValueAt_cons_succ]
  · constructor
    · intro h j hj
      obtain ⟨k, rfl⟩ : ∃ k, j = k + 1 := ⟨j - 1, by omega⟩
      rcases Nat.eq_zero_or_pos k with rfl | hk
      · exact h1
      · rw [hcorr k hk]
        exact h k hk
    · intro h j hj
      rw [← hcorr j hj]
      exact h (j + 1) (Nat.succ_pos j)

/-- `scanAux` finds exactly the first delimiter-alternative match at a
positive position, and its captured value. -/
theorem scanAux_iff (l : List Char) :
    (∀ n, scanAux l = some n ↔
      ∃ j, 0 < j ∧ specMatchAt l j ∧
        (∀ i, 0 < i → i < j → ¬ specMatchAt l i) ∧ n = specValueAt l j) ∧
    (scanAux l = none ↔ ∀ j, 0 < j → ¬ specMatchAt l j) := by
  induction l with
  | nil =>
    have hno : ∀ j, ¬ specMatchAt [] j := by
      rintro j ⟨-, hc, -⟩
      simp at hc
    constructor
    · intro n
      constructor
      · intro h; exact absurd h (by simp [scanAux])
      · rintro ⟨j, -, hm, -⟩; exact absurd hm (hno j)
    · exact ⟨fun _ j _ => hno j, fun _ => rfl⟩
  | cons c rest ih =>
    by_cases hdelim : isDelim c = true
    · rcases hm : matchCAt rest with _ | m
      · -- no match right after the delimiter: scanAux recurses
        have hnomatch : ¬ cMatchAt rest 0 := (matchCAt_iff rest).2.mp hm
        have h1 : ¬ specMatchAt (c :: rest) 1 := by
          rw [specMatchAt_cons_one]
          rintro ⟨-, hc⟩
          exact hnomatch hc
        have hsc : scanAux (c :: rest) = scanAux rest := by
          rw [scanAux, if_pos hdelim, hm]
        obtain ⟨hcorr, hcornone⟩ := shift_correspondence c rest h1
        constructor
        · intro n
          rw [hsc, (ih.1 n)]
          exact hcorr n
        · rw [hsc, ih.2]
          exact hcornone
      · -- a match right after the delimiter: position 1 is the first match
        have hcm : cMatchAt rest 0 ∧ m = specValueAt rest 0 :=
          ((matchCAt_iff rest).1 m).mp hm
        have hm1 : specMatchAt (c :: rest) 1 := by
          rw [specMatchAt_cons_one]
          exact ⟨hdelim, hcm.1⟩
        have hsc : scanAux (c :: rest) = some m := by
          rw [scanAux, if_pos hdelim, hm]
        have hv1 : specValueAt (c :: rest) 1 = m := by
          rw [show specValueAt (c :: rest) 1 = specValueAt rest 0 from
            specValueAt_cons_succ c rest 0, hcm.2]
        constructor
        · intro n
          rw [hsc]
          constructor
          · intro hn
            simp only [Option.some.injEq] at hn
            subst hn
            exact ⟨1, Nat.one_pos, hm1, by omega, hv1.symm⟩
          · rintro ⟨j, hj, hmj, hfirst, hv⟩
            have hj1 : j = 1 := by
              by_contra hne
              exact hfirst 1 Nat.one_pos (by omega) hm1
            subst hj1
            rw [hv, hv1]
        · rw [hsc]
          constructor
          · intro h; exact absurd h (by simp)
          · intro h; exact absurd hm1 (h 1 Nat.one_pos)
    · -- not a delimiter: no match at position 1, recurse
      have h1 : ¬ specMatchAt (c :: rest) 1 := by
        rw [specMatchAt_cons_one]
        rintro ⟨hc, -⟩
        exact hdelim hc
      have hsc : scanAux (c :: rest) = scanAux rest := by
        rw [scanAux, if_neg hdelim]
      obtain ⟨hcorr, hcornone⟩ := shift_correspondence c rest h1
      constructor
      · intro n
        rw [hsc, (ih.1 n)]
        exact hcorr n
      · rw [hsc, ih.2]
        exact hcornone

/-- C7 — `getDestinationChainId` on a decoded text returns exactly the
integer of the first `c=<digits>` occurrence appearing at the start of the
string or right after a `&`/`?` delimiter, and `null` when no such
occurrence exists (a `c=` preceded by any other character never matches). -/
theorem getDestinationChainId_first_match (s : String) :
    (∀ e : ExtData, e.utf8 = some s → getDestinationChainId e = extractC s) ∧
    (∀ n, extractC s = some n ↔
      ∃ j, specMatchAt s.data j ∧ (∀ i, i < j → ¬ specMatchAt s.data i) ∧
        n = specValueAt s.data j) ∧
    (extractC s = none ↔ ∀ j, ¬ specMatchAt s.data j) := by
  refine ⟨?_, ?_, ?_⟩
  · intro e he
    unfold getDestinationChainId
    rw [he]
  all_goals
    rcases hm : matchCAt s.data with _ | m
  case _ =>
    -- no `^`-alternative match: extractC falls through to scanAux
    have hno0 : ¬ specMatchAt s.data 0 := by
      rw [specMatchAt_zero]
      exact (matchCAt_iff s.data).2.mp hm
    have hex : extractC s = scanAux s.data := by
      rw [extractC, hm]
    intro n
    rw [hex, (scanAux_iff s.data).1 n]
    constructor
    · rintro ⟨j, hj, hmj, hfirst, hv⟩
      refine ⟨j, hmj, ?_, hv⟩
      intro i hij
      rcases Nat.eq_zero_or_pos i with rfl | hi
      · exact hno0
      · exact hfirst i hi hij
    · rintro ⟨j, hmj, hfirst, hv⟩
      have hj : 0 < j := by
        rcases Nat.eq_zero_or_pos j with rfl | hj
        · exact absurd hmj hno0
        · exact hj
      exact ⟨j, hj, hmj, fun i hi hij => hfirst i hij, hv⟩
  case _ =>
    -- `^`-alternative match: position 0 is the first match
    have hcm : cMatchAt s.data 0 ∧ m = specValueAt s.data 0 :=
      ((matchCAt_iff s.data).1 m).mp hm
    have hm0 : specMatchAt s.data 0 := (specMatchAt_zero s.data).mpr hcm.1
    have hex : extractC s = some m := by
      rw [extractC, hm]
    intro n
    rw [hex]
    constructor
    · intro hn
      simp only [Option.some.injEq] at hn
      subst hn
      exact ⟨0, hm0, by omega, hcm.2⟩
    · rintro ⟨j, hmj, hfirst, hv⟩
      have hj0 : j = 0 := by
        by_contra hne
        exact hfirst 0 (by omega) hm0
      subst hj0
      rw [hv, ← hcm.2]
  case _ =>
    have hno0 : ¬ specMatchAt s.data 0 := by
      rw [specMatchAt_zero]
      exact (matchCAt_iff s.data).2.mp hm
    have hex : extractC s = scanAux s.data := by
      rw [extractC, hm]
    rw [hex, (scanAux_iff s.data).2]
    constructor
    · intro h j
      rcases Nat.eq_zero_or_pos j with rfl | hj
      · exact hno0
      · exact h j hj
    · intro h j _
      exact h j
  case _ =>
    have hm0 : specMatchAt s.data 0 :=
      (specMatchAt_zero s.data).mpr (((matchCAt_iff s.data).1 m).mp hm).1
    have hex : extractC s = some m := by
      rw [extractC, hm]
    rw [hex]
    constructor
    · intro h; exact absurd h (by simp)
    · intro h; exact absurd hm0 (h 0)

/-- Witness for C7: on `"r=1&c=173&x=9"` the first valid occurrence is found
and captures 173. -/
theorem getDestinationChainId_first_match_witness :
    ∃ j, specMatchAt ("r=1&c=173&x=9").data j ∧
      (∀ i, i < j → ¬ specMatchAt ("r=1&c=173&x=9").data i) ∧
      173 = specValueAt ("r=1&c=173&x=9").data j :=
  (((getDestinationChainId_first_match "r=1&c=173&x=9").2.1) 173).mp rfl

end EniBridge
